import Mathlib

/-!
Shallow embedding of the reconciliation core of the `serverless-aws-alias-v4`
plugin (`src/index.js`, patched per-function-stage-variable revision), together
with proofs about the embedded operations.

Remote control-plane calls are modelled by explicit environment records: each
record field holds the outcome the remote side would report for one call site
(`ok`, `notFound` for a `ResourceNotFoundException`, or `err` for any other
error).  Mutating calls are collected in explicit lists of `MutCall` values so
that "issues no mutating call" is a statement about a computed list.  Timing
(the one-second sleep between poll attempts) is not representable in a shallow
embedding; the poll loop is modelled by its attempt sequence.
-/

namespace AwsAlias

/-- Outcome of one remote control-plane call: success with a value, a
`ResourceNotFoundException`, or any other (unexpected) error. -/
inductive RemoteResult (α : Type) where
  | ok (val : α)
  | notFound
  | err
  deriving DecidableEq, Repr

/-- A layer reference as returned in a function configuration; the source reads
only the `Arn` field (`layer.Arn`). -/
structure Layer where
  arn : String
  deriving DecidableEq, Repr

/-- A Lambda function configuration as returned by `getFunctionConfiguration`,
restricted to the fields the plugin reads.  `envVars` models
`Environment.Variables` (`{}` when absent) as an association list; JS objects
have no duplicate keys, and lookups use first-match semantics. -/
structure FunctionConfig where
  codeSha256 : String
  handler : String
  runtime : String
  memorySize : Nat
  timeout : Nat
  role : String
  envVars : List (String × String)
  layers : List Layer
  deriving DecidableEq, Repr

/-- An alias descriptor as returned by `getAlias` / `createAlias` /
`updateAlias`, restricted to the fields the plugin reads. -/
structure AliasDesc where
  functionVersion : String
  aliasArn : String
  deriving DecidableEq, Repr

/-- Property lookup `ENV[KEY]` on a JS object modelled as an association list:
`none` models `undefined`. -/
def lookupEnv (l : List (String × String)) (k : String) : Option String :=
  (l.find? (fun p => p.1 == k)).map (fun p => p.2)

/-- The key list of a JS object modelled as an association list
(`Object.keys`). -/
def envKeys (l : List (String × String)) : List String :=
  l.map (fun p => p.1)

/-- Lexicographic comparison of character lists by code point, the order
`Array.prototype.sort()` applies to the strings compared here (JS compares
UTF-16 code units, which agrees with code points on these identifiers). -/
def strLeAux : List Char → List Char → Bool
  | [], _ => true
  | _ :: _, [] => false
  | a :: as, b :: bs =>
    if a.toNat < b.toNat then true
    else if b.toNat < a.toNat then false
    else strLeAux as bs

/-- String comparison used by the sorts below. -/
def strLe (a b : String) : Bool :=
  strLeAux a.data b.data

/-- `Array.prototype.sort()` on a list of strings (lexicographic). -/
def sortStrings (l : List String) : List String :=
  List.insertionSort (fun a b => strLe a b = true) l

/-- Remote outcomes feeding one `haveFunctionChanges` check: the unqualified
(`latest`) configuration fetch, the fetch qualified by the comparison version,
and the `getAlias` probe performed at the end of the check. -/
structure ChangeEnv where
  latestConfig : RemoteResult FunctionConfig
  versionConfig : RemoteResult FunctionConfig
  aliasRead : RemoteResult AliasDesc
  deriving DecidableEq, Repr

/-- The Change Detector (`haveFunctionChanges`).  Mirrors the source: any error
fetching either configuration yields `true` (the inner catch turns a missing
comparison version into `true`, everything else is rethrown into the outer
catch, which also returns `true`); then content hash, handler, runtime, memory
size, timeout and role are compared; then sorted environment key lists of the
comparison version against the latest and against the desired configuration;
then the values at every comparison-version key against latest and against
desired; then sorted layer ARNs.  The final `getAlias` probe returns `false`
whether or not the alias points at the comparison version (both branches fall
through to `return false`), but an unexpected error from it is rethrown into
the outer catch and yields `true`. -/
def haveFunctionChanges (env : ChangeEnv) (desiredEnvVars : List (String × String))
    (specificVersion : String) : Bool :=
  match env.latestConfig with
  | .notFound => true
  | .err => true
  | .ok latest =>
    match env.versionConfig with
    | .notFound => true
    | .err => true
    | .ok ver =>
      if latest.codeSha256 ≠ ver.codeSha256 then true
      else if latest.handler ≠ ver.handler then true
      else if latest.runtime ≠ ver.runtime then true
      else if latest.memorySize ≠ ver.memorySize then true
      else if latest.timeout ≠ ver.timeout then true
      else if latest.role ≠ ver.role then true
      else
        let currentKeys := sortStrings (envKeys ver.envVars)
        let latestKeys := sortStrings (envKeys latest.envVars)
        let configKeys := sortStrings (envKeys desiredEnvVars)
        if currentKeys ≠ latestKeys then true
        else if currentKeys ≠ configKeys then true
        else if currentKeys.any (fun k => lookupEnv ver.envVars k ≠ lookupEnv latest.envVars k) then true
        else if currentKeys.any (fun k => lookupEnv ver.envVars k ≠ lookupEnv desiredEnvVars k) then true
        else if sortStrings (ver.layers.map Layer.arn) ≠ sortStrings (latest.layers.map Layer.arn) then true
        else
          match env.aliasRead with
          | .err => true
          | .notFound => false
          | .ok aliasCfg =>
            -- the source compares `ALIAS_CONFIG.FunctionVersion === specificVersion`
            -- and returns false in that branch, then falls through to `return false`
            -- anyway: both outcomes are false
            if aliasCfg.functionVersion = specificVersion then false else false

/-- The change condition exactly as claim C4 words it (spec side of the
refinement): the two configurations differ in content hash, handler, runtime,
memory size, timeout or role; or the comparison-version environment key set
differs from the latest-config key set or from the desired-config key set
(key-set equality of JS objects is permutation of the key lists); or some
comparison-version key's value differs against latest or against desired; or
the sorted layer-reference lists differ. -/
def specChangeCondition (latest ver : FunctionConfig)
    (desiredEnvVars : List (String × String)) : Prop :=
  latest.codeSha256 ≠ ver.codeSha256 ∨ latest.handler ≠ ver.handler ∨
  latest.runtime ≠ ver.runtime ∨ latest.memorySize ≠ ver.memorySize ∨
  latest.timeout ≠ ver.timeout ∨ latest.role ≠ ver.role ∨
  ¬ List.Perm (envKeys ver.envVars) (envKeys latest.envVars) ∨
  ¬ List.Perm (envKeys ver.envVars) (envKeys desiredEnvVars) ∨
  (∃ k ∈ envKeys ver.envVars, lookupEnv ver.envVars k ≠ lookupEnv latest.envVars k) ∨
  (∃ k ∈ envKeys ver.envVars, lookupEnv ver.envVars k ≠ lookupEnv desiredEnvVars k) ∨
  sortStrings (ver.layers.map Layer.arn) ≠ sortStrings (latest.layers.map Layer.arn)

/-- `LastUpdateStatus` as read by the wait loop: the source tests the literal
strings `Successful` and `Failed`; `inProgress` stands for every other value. -/
inductive UpdateStatus where
  | successful
  | failed
  | inProgress
  deriving DecidableEq, Repr

/-- Outcome of one `getFunctionConfiguration` poll inside the wait loop. -/
abbrev PollResult := RemoteResult UpdateStatus

/-- How the wait loop exits: a successful status observed on poll attempt `i`,
a `ResourceNotFoundException` propagated from attempt `i`, or the retry cap
exhausted (the timeout error).  There is no constructor for an update-failure
error: the `throw new Error('Function update failed: ...')` raised on a
`Failed` status is caught by the `catch` of the same `try` block, does not
carry the `ResourceNotFoundException` code, and is therefore retried. -/
inductive WaitOutcome where
  | success (attempt : Nat)
  | notFoundErr (attempt : Nat)
  | timeout
  deriving DecidableEq, Repr

/-- The retry cap of the wait loop (`MAX_RETRIES = 30`). -/
def MAX_RETRIES : Nat := 30

/-- One pass of the wait loop starting at poll attempt `i` with `rem` retries
left before the cap.  A `Successful` status returns; a `Failed` status throws
an error that the loop's own catch swallows (no `code` property), so it sleeps
and retries; a `ResourceNotFoundException` is rethrown; any other error sleeps
and retries. -/
def waitFrom (poll : Nat → PollResult) : Nat → Nat → WaitOutcome
  | _, 0 => .timeout
  | i, rem + 1 =>
    match poll i with
    | .ok .successful => .success i
    | .ok .failed => waitFrom poll (i + 1) rem
    | .ok .inProgress => waitFrom poll (i + 1) rem
    | .notFound => .notFoundErr i
    | .err => waitFrom poll (i + 1) rem

/-- The wait loop `waitForFunctionUpdateToComplete`: up to `MAX_RETRIES` poll
attempts starting from attempt `0`. -/
def waitForFunctionUpdateToComplete (poll : Nat → PollResult) : WaitOutcome :=
  waitFrom poll 0 MAX_RETRIES

/-- Accumulate leading decimal digits (kernel-evaluable). -/
def leadingDigitsToNat : List Char → Nat → Nat
  | [], acc => acc
  | c :: rest, acc =>
    if c.isDigit then leadingDigitsToNat rest (acc * 10 + (c.toNat - '0'.toNat))
    else acc

/-- `parseInt` on a version string, as used by the descending sort in
`getLatestFunctionVersion`; published version identifiers are digit strings,
for which this agrees with `parseInt` (the `NaN` of a non-numeric string is
collapsed to `0`, a case the listing never produces). -/
def parseIntNat (s : String) : Nat :=
  leadingDigitsToNat s.data 0

/-- First element of maximal `parseInt` value: the head of the stable
descending sort `VERSIONS.sort((a, b) => parseInt(b) - parseInt(a))[0]`. -/
def pickLatest : List String → Option String
  | [] => none
  | v :: rest =>
    match pickLatest rest with
    | none => some v
    | some w => if parseIntNat v < parseIntNat w then some w else some v

/-- Remote outcomes feeding one `getLatestFunctionVersion` call: the existence
probe (`getFunction`) and the version listing (`listVersionsByFunction`,
returning the `Version` strings, which include the `$LATEST` marker entry). -/
structure VersionListEnv where
  getFunctionResult : RemoteResult Unit
  listVersionsResult : RemoteResult (List String)
  deriving DecidableEq, Repr

/-- `getLatestFunctionVersion`: returns `none` when the function does not
exist; propagates any other existence-probe error; otherwise filters out the
`$LATEST` entry, returns the newest numbered version, and falls back to the
literal `$LATEST` both when no numbered version remains and when the listing
call itself fails (any error, including not-found). -/
def getLatestFunctionVersion (env : VersionListEnv) : Except Unit (Option String) :=
  match env.getFunctionResult with
  | .notFound => .ok none
  | .err => .error ()
  | .ok _ =>
    match env.listVersionsResult with
    | .ok vs =>
      match pickLatest (vs.filter (fun v => v ≠ "$LATEST")) with
      | some v => .ok (some v)
      | none => .ok (some "$LATEST")
    | .notFound => .ok (some "$LATEST")
    | .err => .ok (some "$LATEST")

/-- The plugin configuration fields consumed by the deployment workflow, as
assembled by `initializePlugin`.  Absent string-valued settings
(`restApiId`, `websocketApiId`, `stageVarKeyTemplate`) are modelled by `""`,
matching the falsiness tests in the source. -/
structure Config where
  -- the `alias` field of the source config; `alias` is a reserved word in Lean
  aliasName : String
  region : String
  accountId : String
  restApiId : String
  websocketApiId : String
  stage : String
  skipApiGateway : Bool
  skipWebSocketGateway : Bool
  perFunctionStageVars : Bool
  stageVarKeyTemplate : String
  stageVarSanitize : Bool
  skipSetGlobalStageVar : Bool
  deriving DecidableEq, Repr

/-- A mutating remote call, as issued by the workflow.  Read-only calls
(`getFunctionConfiguration`, `getAlias`, `getFunction`,
`listVersionsByFunction`, `getResources`, `getIntegration(s)`, `getRoutes`,
`getStage`, `getCallerIdentity`) are not mutations and are represented by the
environment records instead. -/
inductive MutCall where
  | updateFunctionConfiguration (functionName : String) (envVars : List (String × String))
  | publishVersion (functionName : String)
  | createAlias (functionName aliasName version : String)
  | updateAlias (functionName aliasName version : String)
  | updateIntegration (resourceId method uri : String)
  | updateWsIntegration (integrationId uri : String)
  | removePermission (functionName statementId : String)
  | addPermission (functionName statementId sourceArn : String)
  | createDeployment (apiId : String)
  | updateStage (apiId stageName : String)
  | createStage (apiId stageName : String)
  deriving DecidableEq, Repr

/-- Remote outcomes feeding one `createOrUpdateAlias` call: the `getAlias`
probe and the descriptors returned by `updateAlias` / `createAlias` (the
mutating calls themselves are modelled as succeeding; no claim concerns their
failure). -/
structure AliasEnv where
  aliasRead : RemoteResult AliasDesc
  updateResult : AliasDesc
  createResult : AliasDesc
  deriving DecidableEq, Repr

/-- The Alias Manager (`createOrUpdateAlias`): guards against falsy
(`""`) function name and version, probes the alias, creates it when absent,
updates it when it points at a different version, returns the existing
descriptor unchanged when it already points at the target, and propagates any
probe error other than `ResourceNotFoundException`. -/
def createOrUpdateAlias (cfg : Config) (env : AliasEnv) (functionName version : String) :
    Except Unit AliasDesc × List MutCall :=
  if functionName = "" then (.error (), [])
  else if version = "" then (.error (), [])
  else
    match env.aliasRead with
    | .ok existing =>
      if existing.functionVersion ≠ version then
        (.ok env.updateResult, [.updateAlias functionName cfg.aliasName version])
      else
        (.ok existing, [])
    | .notFound =>
      (.ok env.createResult, [.createAlias functionName cfg.aliasName version])
    | .err => (.error (), [])

/-- An HTTP routing event (`event.http`), restricted to the fields the
deployment workflow reads (`cors` and `methodSettings` are consumed only by
the pre-deployment validation, which is outside the workflow embedded here). -/
structure HttpEvent where
  path : String
  method : String
  deriving DecidableEq, Repr

/-- One routing event of a function: `event.http` or `event.websocket` (the
latter written in the source either as a string or as `{ route }`; both carry
just the route key). -/
inductive Event where
  | http (ev : HttpEvent)
  | websocket (route : String)
  deriving DecidableEq, Repr

/-- A desired function as assembled by `getFunctionsForAliasDeployment`:
logical name, physical name, handler, merged environment, events,
description. -/
structure FunctionSpec where
  name : String
  functionName : String
  handler : String
  environment : List (String × String)
  events : List Event
  description : String
  deriving DecidableEq, Repr

def eventIsHttp : Event → Bool
  | .http _ => true
  | .websocket _ => false

def eventIsWebsocket : Event → Bool
  | .http _ => false
  | .websocket _ => true

/-- `hasHttpEvents`: find the function by logical name, `false` when absent,
else whether any event is an HTTP event. -/
def hasHttpEvents (functionName : String) (functions : List FunctionSpec) : Bool :=
  match functions.find? (fun f => f.name == functionName) with
  | none => false
  | some f => f.events.any eventIsHttp

/-- `hasWebSocketEvents`: find the function by logical name, `false` when
absent, else whether any event is a WebSocket event. -/
def hasWebSocketEvents (functionName : String) (functions : List FunctionSpec) : Bool :=
  match functions.find? (fun f => f.name == functionName) with
  | none => false
  | some f => f.events.any eventIsWebsocket

/-- `String.prototype.toUpperCase()` restricted to ASCII, as applied to HTTP
methods. -/
def jsToUpperCase (s : String) : String :=
  ⟨s.data.map Char.toUpper⟩

/-- `getHttpEventsForFunction`: the HTTP events of the function with the given
logical name, methods upper-cased; `[]` when the function is absent. -/
def getHttpEventsForFunction (functionName : String) (functions : List FunctionSpec) :
    List HttpEvent :=
  match functions.find? (fun f => f.name == functionName) with
  | none => []
  | some f =>
    f.events.filterMap (fun e =>
      match e with
      | .http ev => some { path := ev.path, method := jsToUpperCase ev.method }
      | .websocket _ => none)

/-- `getWebSocketEventsForFunction`: the WebSocket route keys of the function
with the given logical name; `[]` when the function is absent. -/
def getWebSocketEventsForFunction (functionName : String) (functions : List FunctionSpec) :
    List String :=
  match functions.find? (fun f => f.name == functionName) with
  | none => []
  | some f =>
    f.events.filterMap (fun e =>
      match e with
      | .http _ => none
      | .websocket route => some route)

/-- Remote outcomes feeding one `publishNewFunctionVersion` call: the
`updateFunctionConfiguration` call, the poll sequence of the wait loop, and
the `publishVersion` call (returning the new `Version` string). -/
structure PublishEnv where
  updateConfigResult : RemoteResult Unit
  poll : Nat → PollResult
  publishResult : RemoteResult String

/-- The Version Publisher (`publishNewFunctionVersion`): pushes the desired
environment as a configuration update, waits for it to complete, then
publishes a new version and returns its identifier; any error propagates to
the caller (the per-function catch). -/
def publishNewFunctionVersion (env : PublishEnv) (f : FunctionSpec) :
    Except Unit String × List MutCall :=
  let configCall : List MutCall := [.updateFunctionConfiguration f.functionName f.environment]
  match env.updateConfigResult with
  | .ok _ =>
    match waitForFunctionUpdateToComplete env.poll with
    | .success _ =>
      match env.publishResult with
      | .ok v => (.ok v, configCall ++ [.publishVersion f.functionName])
      | .notFound => (.error (), configCall ++ [.publishVersion f.functionName])
      | .err => (.error (), configCall ++ [.publishVersion f.functionName])
    | .notFoundErr _ => (.error (), configCall)
    | .timeout => (.error (), configCall)
  | .notFound => (.error (), configCall)
  | .err => (.error (), configCall)

/-- Remote outcomes feeding the per-function pipeline of
`createOrUpdateFunctionAliases`: the `getExistingAlias` probe (its
`ResourceNotFoundException` is swallowed into `null`), the version listing,
the change check, the publish step and the alias upsert. -/
structure FnEnv where
  existingAlias : RemoteResult AliasDesc
  versions : VersionListEnv
  changeEnv : ChangeEnv
  publishEnv : PublishEnv
  aliasEnv : AliasEnv

/-- A created/updated alias record as pushed onto `CREATED_ALIASES`. -/
structure CreatedAlias where
  functionName : String
  name : String
  aliasName : String
  aliasArn : String
  version : String
  events : List Event
  deriving DecidableEq, Repr

/-- Outcome of the per-function pipeline: an alias was created/updated, the
function was skipped (`continue` on the no-change path), or it was added to
the failure list. -/
inductive StepOutcome where
  | created (a : CreatedAlias)
  | skipped
  | failed
  deriving DecidableEq, Repr

/-- Tail of the per-function pipeline once a target version has been chosen:
the falsy-version guard (`if (!version)`), then `createOrUpdateAlias`, whose
success yields the `CREATED_ALIASES` record. -/
def processFunctionFinish (cfg : Config) (env : FnEnv) (f : FunctionSpec)
    (version : String) (priorCalls : List MutCall) : StepOutcome × List MutCall :=
  if version = "" then (.failed, priorCalls)
  else
    match createOrUpdateAlias cfg env.aliasEnv f.functionName version with
    | (.ok desc, calls) =>
      (.created { functionName := f.functionName, name := f.name, aliasName := cfg.aliasName,
                  aliasArn := desc.aliasArn, version := version, events := f.events },
       priorCalls ++ calls)
    | (.error _, calls) => (.failed, priorCalls ++ calls)

/-- Per-function pipeline after the `getExistingAlias` probe resolved
(`null` for a swallowed not-found).  Mirrors the source: a failing
`getLatestFunctionVersion` fails the function; with the force flag and an
existing latest version that version is used as-is; with no latest version a
new version is published; otherwise the change check runs against the alias's
version (or the latest version when no alias exists), publishing on change,
re-using the latest version for a new function, and skipping
(`continue`) when an alias exists and nothing changed. -/
def processFunctionKnownAlias (isForce : Bool) (cfg : Config) (env : FnEnv) (f : FunctionSpec)
    (existingAlias : Option AliasDesc) : StepOutcome × List MutCall :=
  match getLatestFunctionVersion env.versions with
  | .error _ => (.failed, [])
  | .ok latestVersion =>
    match latestVersion with
    | some lv =>
      if isForce then processFunctionFinish cfg env f lv []
      else
        let compareVersion :=
          match existingAlias with
          | some a => a.functionVersion
          | none => lv
        if haveFunctionChanges env.changeEnv f.environment compareVersion then
          match publishNewFunctionVersion env.publishEnv f with
          | (.ok v, calls) => processFunctionFinish cfg env f v calls
          | (.error _, calls) => (.failed, calls)
        else
          match existingAlias with
          | none => processFunctionFinish cfg env f lv []
          | some _ => (.skipped, [])
    | none =>
      match publishNewFunctionVersion env.publishEnv f with
      | (.ok v, calls) => processFunctionFinish cfg env f v calls
      | (.error _, calls) => (.failed, calls)

/-- The whole per-function pipeline of the `createOrUpdateFunctionAliases`
loop body, including the `getExistingAlias` probe (an unexpected probe error
is caught by the per-function catch and fails the function). -/
def processFunction (isForce : Bool) (cfg : Config) (env : FnEnv) (f : FunctionSpec) :
    StepOutcome × List MutCall :=
  match env.existingAlias with
  | .ok a => processFunctionKnownAlias isForce cfg env f (some a)
  | .notFound => processFunctionKnownAlias isForce cfg env f none
  | .err => (.failed, [])

/-- `createOrUpdateFunctionAliases`: sequential per-function loop accumulating
the created aliases, the failed function names and the mutating calls
issued. -/
def createOrUpdateFunctionAliases (isForce : Bool) (cfg : Config) :
    List (FunctionSpec × FnEnv) → List CreatedAlias × List String × List MutCall
  | [] => ([], [], [])
  | (f, env) :: rest =>
    let step := processFunction isForce cfg env f
    let r := createOrUpdateFunctionAliases isForce cfg rest
    match step.1 with
    | .created a => (a :: r.1, r.2.1, step.2 ++ r.2.2)
    | .skipped => (r.1, r.2.1, step.2 ++ r.2.2)
    | .failed => (r.1, f.functionName :: r.2.1, step.2 ++ r.2.2)

/-- A REST API Gateway resource, restricted to the fields the plugin reads. -/
structure GatewayResource where
  id : String
  path : String
  deriving DecidableEq, Repr

/-- The run-scoped `apiGatewayResourceCache` (`Map` keyed by normalized path);
`Map.set` is only ever called on keys the `has` probe missed, so a
cons-with-first-match association list models it exactly. -/
abbrev ResourceCache := List (String × GatewayResource)

/-- `path.startsWith('/')` (kernel-evaluable form). -/
def startsWithSlash (s : String) : Bool :=
  match s.data with
  | [] => false
  | c :: _ => c == '/'

/-- Path normalization as performed by `findResourceByPath` and
`addLambdaPermission`: enforce a leading slash. -/
def normalizePath (path : String) : String :=
  if startsWithSlash path then path else "/" ++ path

/-- The Resource Resolver & Cache (`findResourceByPath`): normalize the path,
serve a cache hit, otherwise scan the listing and cache the entry only when a
resource was found. -/
def findResourceByPath (cache : ResourceCache) (resources : List GatewayResource)
    (path : String) : Option GatewayResource × ResourceCache :=
  let normalized := normalizePath path
  match (cache.find? (fun e => e.1 == normalized)).map (fun e => e.2) with
  | some r => (some r, cache)
  | none =>
    match resources.find? (fun r => r.path == normalized) with
    | some r => (some r, (normalized, r) :: cache)
    | none => (none, cache)

/-- The safe character class `[a-zA-Z0-9-_]` of the statement-id sanitizers
(also the claimed safe set: letters, digits, underscore, hyphen). -/
def isSafeChar (c : Char) : Bool :=
  c.isAlpha || c.isDigit || c == '-' || c == '_'

/-- `.replace(/[^a-zA-Z0-9-_]/g, '-')` as applied to statement ids. -/
def sanitizeStatementId (s : String) : String :=
  ⟨s.data.map (fun c => if isSafeChar c then c else '-')⟩

/-- Whether every character of a string lies in the safe set. -/
def allSafeChars (s : String) : Bool :=
  s.data.all isSafeChar

/-- The stage-variable-key character class `[A-Za-z0-9_]` (no hyphen). -/
def isStageKeyChar (c : Char) : Bool :=
  c.isAlpha || c.isDigit || c == '_'

/-- Global, non-overlapping, left-to-right substring replacement
(`String.prototype.replace` with a `/g` literal pattern), fuel-structured on
the input length so that it evaluates by kernel reduction; the replacement is
not rescanned. -/
def replaceFuel (pat rep : List Char) : Nat → List Char → List Char
  | _, [] => []
  | 0, l => l
  | fuel + 1, c :: rest =>
    if pat.length ≠ 0 ∧ (c :: rest).take pat.length = pat then
      rep ++ replaceFuel pat rep fuel (rest.drop (pat.length - 1))
    else
      c :: replaceFuel pat rep fuel rest

/-- `s.replace(pat-as-literal/g, rep)`. -/
def replaceAll (s pat rep : String) : String :=
  ⟨replaceFuel pat.data rep.data s.data.length s.data⟩

/-- `buildStageVarKey`: substitute the function and alias names into the
template (default `\x7bfunctionName\x7dAlias`; a falsy function name becomes
`function`), then sanitize to `[A-Za-z0-9_]` with `_` only when
`stageVarSanitize` is set. -/
def buildStageVarKey (cfg : Config) (functionName : String) : String :=
  let template := if cfg.stageVarKeyTemplate = "" then "\x7bfunctionName\x7dAlias"
                  else cfg.stageVarKeyTemplate
  let fnName := if functionName = "" then "function" else functionName
  let key := replaceAll (replaceAll template "\x7bfunctionName\x7d" fnName)
               "\x7baliasName\x7d" cfg.aliasName
  if cfg.stageVarSanitize then ⟨key.data.map (fun c => if isStageKeyChar c then c else '_')⟩
  else key

/-- `getStageVarExprForFunction`: the stage-variable expression embedded in
integration URIs — the shared `alias` key in global mode, the per-function key
otherwise. -/
def getStageVarExprForFunction (cfg : Config) (functionName : String) : String :=
  if !cfg.perFunctionStageVars then "$\x7bstageVariables.alias\x7d"
  else "$\x7bstageVariables." ++ buildStageVarKey cfg functionName ++ "\x7d"

/-- The integration invocation URI built around the alias-qualified Lambda
ARN whose qualifier is the stage-variable expression. -/
def integrationUri (cfg : Config) (physicalName stageVarExpr : String) : String :=
  "arn:aws:apigateway:" ++ cfg.region ++ ":lambda:path/2015-03-31/functions/" ++
    "arn:aws:lambda:" ++ cfg.region ++ ":" ++ cfg.accountId ++ ":function:" ++
    physicalName ++ ":" ++ stageVarExpr ++ "/invocations"

/-- The HTTP stage permission statement id (`STAGE_STATEMENT_ID`). -/
def httpStageStatementId (cfg : Config) (method resourceId : String) : String :=
  sanitizeStatementId
    ("apigateway-" ++ cfg.restApiId ++ "-" ++ cfg.aliasName ++ "-" ++ method ++ "-" ++ resourceId)

/-- The HTTP test-invoke permission statement id (`TEST_STATEMENT_ID`). -/
def httpTestStatementId (cfg : Config) (method resourceId : String) : String :=
  sanitizeStatementId
    ("apigateway-test-" ++ cfg.restApiId ++ "-" ++ cfg.aliasName ++ "-" ++ method ++ "-" ++ resourceId)

/-- The WebSocket permission statement id (`STATEMENT_ID`). -/
def wsStatementId (cfg : Config) (routeId : String) : String :=
  sanitizeStatementId
    ("apigateway-ws-" ++ cfg.websocketApiId ++ "-" ++ cfg.aliasName ++ "-" ++ routeId)

/-- `addLambdaPermission`: remove-then-add of the stage and test-invoke
statements.  The permission target is the unqualified physical function name
in per-function stage-variable mode and the alias-qualified name otherwise.
Errors of the two removals are swallowed (at most logged); the adds are
modelled as succeeding (no claim concerns their failure). -/
def addLambdaPermission (cfg : Config) (a : CreatedAlias) (resourceId method path : String) :
    List MutCall :=
  let qualifiedFunctionName :=
    if cfg.perFunctionStageVars then a.functionName
    else a.functionName ++ ":" ++ cfg.aliasName
  let stageStatementId := httpStageStatementId cfg method resourceId
  let testStatementId := httpTestStatementId cfg method resourceId
  let normalizedPath := normalizePath path
  let sourceArn := "arn:aws:execute-api:" ++ cfg.region ++ ":" ++ cfg.accountId ++ ":" ++
    cfg.restApiId ++ "/*/" ++ method ++ normalizedPath
  let testSourceArn := "arn:aws:execute-api:" ++ cfg.region ++ ":" ++ cfg.accountId ++ ":" ++
    cfg.restApiId ++ "/test-invoke-stage/" ++ method ++ normalizedPath
  [.removePermission qualifiedFunctionName stageStatementId,
   .removePermission qualifiedFunctionName testStatementId,
   .addPermission qualifiedFunctionName stageStatementId sourceArn,
   .addPermission qualifiedFunctionName testStatementId testSourceArn]

/-- `addWebSocketLambdaPermission`: remove-then-add of the route statement,
with the same permission-target rule as the HTTP side. -/
def addWebSocketLambdaPermission (cfg : Config) (a : CreatedAlias) (routeId routeKey : String) :
    List MutCall :=
  let qualifiedFunctionName :=
    if cfg.perFunctionStageVars then a.functionName
    else a.functionName ++ ":" ++ cfg.aliasName
  let statementId := wsStatementId cfg routeId
  let sourceArn := "arn:aws:execute-api:" ++ cfg.region ++ ":" ++ cfg.accountId ++ ":" ++
    cfg.websocketApiId ++ "/*/" ++ routeKey
  [.removePermission qualifiedFunctionName statementId,
   .addPermission qualifiedFunctionName statementId sourceArn]

/-- `updateApiGatewayIntegration` for one HTTP event: resolve the resource
(skipping the event when absent), rewrite the integration URI to the
stage-variable expression, then re-grant permissions.  The `getIntegration`
probe in the source is logging-only. -/
def updateApiGatewayIntegration (cfg : Config) (resources : List GatewayResource)
    (cache : ResourceCache) (a : CreatedAlias) (ev : HttpEvent) :
    ResourceCache × List MutCall :=
  match findResourceByPath cache resources ev.path with
  | (none, cache') => (cache', [])
  | (some r, cache') =>
    let expr := getStageVarExprForFunction cfg a.name
    let uri := integrationUri cfg a.functionName expr
    (cache', .updateIntegration r.id ev.method uri :: addLambdaPermission cfg a r.id ev.method ev.path)

/-- The inner loop of `updateApiGatewayIntegrations` over one alias's HTTP
events, threading the resource cache. -/
def updateHttpEventsLoop (cfg : Config) (resources : List GatewayResource) (a : CreatedAlias) :
    ResourceCache → List HttpEvent → ResourceCache × List MutCall
  | cache, [] => (cache, [])
  | cache, ev :: rest =>
    let r := updateApiGatewayIntegration cfg resources cache a ev
    let r' := updateHttpEventsLoop cfg resources a r.1 rest
    (r'.1, r.2 ++ r'.2)

/-- The outer loop of `updateApiGatewayIntegrations` over the HTTP aliases. -/
def httpAliasesLoop (cfg : Config) (resources : List GatewayResource) (fns : List FunctionSpec) :
    ResourceCache → List CreatedAlias → ResourceCache × List MutCall
  | cache, [] => (cache, [])
  | cache, a :: rest =>
    let r := updateHttpEventsLoop cfg resources a cache (getHttpEventsForFunction a.name fns)
    let r' := httpAliasesLoop cfg resources fns r.1 rest
    (r'.1, r.2 ++ r'.2)

/-- `deployApiGateway`: create a REST deployment, then set the global `alias`
stage variable unless `skipSetGlobalStageVar` is active. -/
def deployApiGateway (cfg : Config) : List MutCall :=
  .createDeployment cfg.restApiId ::
    (if cfg.skipSetGlobalStageVar then [] else [.updateStage cfg.restApiId cfg.stage])

/-- Remote outcome feeding the HTTP synchronizer: the one-shot
`getResources` listing. -/
structure HttpSyncEnv where
  resources : RemoteResult (List GatewayResource)

/-- `updateApiGatewayIntegrations`: guard (no REST API id or no HTTP aliases
→ no-op), fetch the resource listing (a failure aborts the run), loop over
aliases and events, then deploy unless `skipApiGateway` is set.  The `Bool`
flags whether an error aborted the synchronizer. -/
def updateApiGatewayIntegrations (cfg : Config) (env : HttpSyncEnv) (fns : List FunctionSpec)
    (aliases : List CreatedAlias) (cache : ResourceCache) :
    ResourceCache × List MutCall × Bool :=
  if cfg.restApiId = "" ∨ aliases.isEmpty then (cache, [], false)
  else
    match env.resources with
    | .ok resources =>
      let r := httpAliasesLoop cfg resources fns cache aliases
      (r.1, r.2 ++ (if cfg.skipApiGateway then [] else deployApiGateway cfg), false)
    | .notFound => (cache, [], true)
    | .err => (cache, [], true)

/-- A WebSocket route, restricted to the fields the plugin reads
(`Target` may be absent). -/
structure WsRoute where
  routeId : String
  routeKey : String
  target : Option String
  deriving DecidableEq, Repr

/-- A WebSocket integration record, restricted to the fields the plugin
reads. -/
structure WsIntegration where
  apiId : String
  integrationId : String
  deriving DecidableEq, Repr

/-- Split on `/` (character lists, kernel-evaluable). -/
def splitOnSlashAux : List Char → List Char → List (List Char)
  | [], acc => [acc.reverse]
  | c :: rest, acc =>
    if c = '/' then acc.reverse :: splitOnSlashAux rest []
    else splitOnSlashAux rest (c :: acc)

/-- `s.split('/').pop()`: the last `/`-separated segment. -/
def lastSegment (s : String) : String :=
  ⟨(splitOnSlashAux s.data []).getLastD []⟩

/-- Remote outcomes feeding the WebSocket synchronizer: the one-shot
`getRoutes` listing, the `getIntegrations` listing (fetched per event in the
source against an unchanged remote, hence one outcome), and the `getStage`
probe of `deployWebSocketApi`. -/
structure WsSyncEnv where
  routes : RemoteResult (List WsRoute)
  integrations : RemoteResult (List WsIntegration)
  stageRead : RemoteResult Unit

/-- `updateWebSocketApiIntegration` for one route key: resolve the route
(skipping the event when absent), list integrations (a failure propagates),
match the integration whose id is the last segment of the route target
(skipping the event when none matches), rewrite its URI and re-grant the
permission.  The `Bool` flags a propagating error. -/
def updateWebSocketApiIntegration (cfg : Config) (env : WsSyncEnv) (routes : List WsRoute)
    (a : CreatedAlias) (route : String) : List MutCall × Bool :=
  match routes.find? (fun r => r.routeKey == route) with
  | none => ([], false)
  | some r =>
    match env.integrations with
    | .ok items =>
      let targetId : Option String := r.target.map lastSegment
      match items.find? (fun i => i.apiId == cfg.websocketApiId &&
          some i.integrationId == targetId) with
      | none => ([], false)
      | some integ =>
        let expr := getStageVarExprForFunction cfg a.name
        let uri := integrationUri cfg a.functionName expr
        (.updateWsIntegration integ.integrationId uri ::
           addWebSocketLambdaPermission cfg a r.routeId route, false)
    | .notFound => ([], true)
    | .err => ([], true)

/-- The inner loop over one alias's WebSocket events; an error aborts the
remaining events (it propagates out of the synchronizer). -/
def wsEventsLoop (cfg : Config) (env : WsSyncEnv) (routes : List WsRoute) (a : CreatedAlias) :
    List String → List MutCall × Bool
  | [] => ([], false)
  | route :: rest =>
    let r := updateWebSocketApiIntegration cfg env routes a route
    if r.2 then r
    else
      let r' := wsEventsLoop cfg env routes a rest
      (r.1 ++ r'.1, r'.2)

/-- The outer loop of `updateWebSocketApiIntegrations` over the WebSocket
aliases; an error aborts the remaining aliases. -/
def wsAliasesLoop (cfg : Config) (env : WsSyncEnv) (routes : List WsRoute)
    (fns : List FunctionSpec) : List CreatedAlias → List MutCall × Bool
  | [] => ([], false)
  | a :: rest =>
    let r := wsEventsLoop cfg env routes a (getWebSocketEventsForFunction a.name fns)
    if r.2 then r
    else
      let r' := wsAliasesLoop cfg env routes fns rest
      (r.1 ++ r'.1, r'.2)

/-- `deployWebSocketApi`: create a deployment, then update the stage when the
`getStage` probe finds it, create it on `NotFoundException`, and propagate any
other probe error. -/
def deployWebSocketApi (cfg : Config) (stageRead : RemoteResult Unit) : List MutCall × Bool :=
  match stageRead with
  | .ok _ => ([.createDeployment cfg.websocketApiId, .updateStage cfg.websocketApiId cfg.stage], false)
  | .notFound => ([.createDeployment cfg.websocketApiId, .createStage cfg.websocketApiId cfg.stage], false)
  | .err => ([.createDeployment cfg.websocketApiId], true)

/-- `updateWebSocketApiIntegrations`: guard (no WebSocket API id or no
WebSocket aliases → no-op), fetch the route listing (a failure aborts the
run), loop over aliases and events, then deploy unless
`skipWebSocketGateway` is set. -/
def updateWebSocketApiIntegrations (cfg : Config) (env : WsSyncEnv) (fns : List FunctionSpec)
    (aliases : List CreatedAlias) : List MutCall × Bool :=
  if cfg.websocketApiId = "" ∨ aliases.isEmpty then ([], false)
  else
    match env.routes with
    | .ok routes =>
      let r := wsAliasesLoop cfg env routes fns aliases
      if r.2 then r
      else if cfg.skipWebSocketGateway then (r.1, false)
      else
        let d := deployWebSocketApi cfg env.stageRead
        (r.1 ++ d.1, d.2)
    | .notFound => ([], true)
    | .err => ([], true)

/-- Remote outcomes feeding one `deployAliasWorkflow` run: the
`getAwsAccountId` resolution and the two synchronizer environments. -/
structure WorkflowEnv where
  accountRead : RemoteResult String
  httpEnv : HttpSyncEnv
  wsEnv : WsSyncEnv

/-- How `deployAliasWorkflow` exits: the early return with no functions to
process, the early return when no aliases were created or updated, a completed
run, or a propagated error (rethrown as a deployment failure). -/
inductive WorkflowExit where
  | earlyNoFunctions
  | earlyNoAliases
  | completed
  | errored
  deriving DecidableEq, Repr

/-- `deployAliasWorkflow`: resolve the account id, early-return when there is
nothing to process, run the alias loop, early-return when no alias was created
or updated, then synchronize HTTP and WebSocket integrations for the aliases
that have events of the respective protocol.  The returned list collects every
mutating call issued by the run. -/
def deployAliasWorkflow (isForce : Bool) (cfg : Config) (env : WorkflowEnv)
    (fns : List (FunctionSpec × FnEnv)) : WorkflowExit × List MutCall :=
  match env.accountRead with
  | .ok _ =>
    if fns.isEmpty then (.earlyNoFunctions, [])
    else
      let r := createOrUpdateFunctionAliases isForce cfg fns
      if r.1.isEmpty then (.earlyNoAliases, r.2.2)
      else
        let specs := fns.map (fun p => p.1)
        let httpAliases := r.1.filter (fun a => hasHttpEvents a.name specs)
        let wsAliases := r.1.filter (fun a => hasWebSocketEvents a.name specs)
        let hr := updateApiGatewayIntegrations cfg env.httpEnv specs httpAliases []
        if hr.2.2 then (.errored, r.2.2 ++ hr.2.1)
        else
          let wr := updateWebSocketApiIntegrations cfg env.wsEnv specs wsAliases
          if wr.2 then (.errored, r.2.2 ++ hr.2.1 ++ wr.1)
          else (.completed, r.2.2 ++ hr.2.1 ++ wr.1)
  | .notFound => (.errored, [])
  | .err => (.errored, [])

/-- Whether a mutating call is a permission removal or addition targeting the
given function name. -/
def mutCallTargets (target : String) : MutCall → Bool
  | .removePermission fn _ => fn == target
  | .addPermission fn _ _ => fn == target
  | _ => false

/-- Well-formedness of the resource cache: every cached entry's resource path
equals its (normalized) cache key. -/
def CacheWF (cache : ResourceCache) : Prop :=
  ∀ e ∈ cache, e.2.path = e.1

/-- A function whose desired state and remote configuration are unchanged
since the previous run: the alias exists remotely, the function exists
remotely (so a latest version is determined), and the change check against
the alias's pointed version reports no change. -/
def steadyFunction (f : FunctionSpec) (env : FnEnv) : Prop :=
  env.versions.getFunctionResult = .ok () ∧
  ∃ a, env.existingAlias = .ok a ∧
    haveFunctionChanges env.changeEnv f.environment a.functionVersion = false

/-- Sample remote function configuration used to instantiate theorems on
concrete inputs. -/
def sampleFnConfig : FunctionConfig :=
  ⟨"sha256", "index.handler", "nodejs18.x", 128, 3, "roleArn", [("A", "1")], []⟩

/-- Sample alias descriptor pointing at version `3`. -/
def sampleAliasDesc : AliasDesc := ⟨"3", "arn:alias"⟩

/-- Sample plugin configuration (global stage-variable mode). -/
def sampleConfig : Config :=
  ⟨"dev", "us-east-1", "123456789012", "restapi", "wsapi", "prod",
   false, false, false, "", true, false⟩

/-- Sample publish environment whose first poll reports success. -/
def samplePublishEnv : PublishEnv :=
  ⟨.ok (), fun _ => .ok .successful, .ok "4"⟩

/-- Sample desired function with no routing events. -/
def sampleSpecHello : FunctionSpec :=
  ⟨"hello", "svc-hello", "index.handler", [("A", "1")], [], ""⟩

/-- Change environment of an unchanged function: both configuration fetches
return the same configuration and the alias probe finds the alias. -/
def steadyChangeEnv : ChangeEnv :=
  ⟨.ok sampleFnConfig, .ok sampleFnConfig, .ok sampleAliasDesc⟩

/-- Per-function environment of an unchanged function whose alias points at
the latest published version. -/
def steadyFnEnv : FnEnv :=
  ⟨.ok sampleAliasDesc, ⟨.ok (), .ok ["$LATEST", "3"]⟩, steadyChangeEnv, samplePublishEnv,
   ⟨.ok sampleAliasDesc, sampleAliasDesc, sampleAliasDesc⟩⟩

/-- Sample workflow environment with successful shared-prerequisite reads. -/
def sampleWorkflowEnv : WorkflowEnv :=
  ⟨.ok "123456789012", ⟨.ok []⟩, ⟨.ok [], .ok [], .ok ()⟩⟩

/-- Version-listing environment of an existing function whose listing succeeds
but contains only the `$LATEST` marker entry (zero published numbered
versions). -/
def zeroVersionsEnv : VersionListEnv := ⟨.ok (), .ok ["$LATEST"]⟩

/-- Per-function environment of an existing function with zero published
numbered versions, no alias yet, and a remote configuration matching the
desired one. -/
def zeroVersionsFnEnv : FnEnv :=
  ⟨.notFound, zeroVersionsEnv, ⟨.ok sampleFnConfig, .ok sampleFnConfig, .notFound⟩,
   samplePublishEnv, ⟨.notFound, sampleAliasDesc, ⟨"$LATEST", "arn:new"⟩⟩⟩

theorem strLeAux_cons (a b : Char) (as bs : List Char) :
    strLeAux (a :: as) (b :: bs) = true ↔
      a.toNat < b.toNat ∨ (a.toNat = b.toNat ∧ strLeAux as bs = true) := by
  simp only [strLeAux]
  split_ifs with h1 h2
  · simp [h1]
  · constructor
    · intro hh
      cases hh
    · intro hh
      rcases hh with hh | ⟨hh, _⟩ <;> omega
  · have hab : a.toNat = b.toNat := by omega
    simp [hab, lt_irrefl]

theorem strLeAux_total : ∀ (as bs : List Char), strLeAux as bs = true ∨ strLeAux bs as = true
  | [], bs => by cases bs <;> simp [strLeAux]
  | a :: as, [] => by simp [strLeAux]
  | a :: as, b :: bs => by
    rw [strLeAux_cons, strLeAux_cons]
    rcases strLeAux_total as bs with h | h
    · by_cases hab : a.toNat < b.toNat
      · exact Or.inl (Or.inl hab)
      · by_cases hba : b.toNat < a.toNat
        · exact Or.inr (Or.inl hba)
        · exact Or.inl (Or.inr ⟨by omega, h⟩)
    · by_cases hab : a.toNat < b.toNat
      · exact Or.inl (Or.inl hab)
      · by_cases hba : b.toNat < a.toNat
        · exact Or.inr (Or.inl hba)
        · exact Or.inr (Or.inr ⟨by omega, h⟩)

theorem strLeAux_trans : ∀ (as bs cs : List Char), strLeAux as bs = true →
    strLeAux bs cs = true → strLeAux as cs = true
  | [], _, cs => by
    intro _ _
    cases cs <;> simp [strLeAux]
  | a :: as, [], cs => by
    intro h1 _
    simp [strLeAux] at h1
  | a :: as, b :: bs, [] => by
    intro _ h2
    simp [strLeAux] at h2
  | a :: as, b :: bs, c :: cs => by
    intro h1 h2
    rw [strLeAux_cons] at h1 h2 ⊢
    rcases h1 with h1 | ⟨h1e, h1r⟩ <;> rcases h2 with h2 | ⟨h2e, h2r⟩
    · exact Or.inl (by omega)
    · exact Or.inl (by omega)
    · exact Or.inl (by omega)
    · exact Or.inr ⟨by omega, strLeAux_trans as bs cs h1r h2r⟩

theorem strLeAux_antisymm : ∀ (as bs : List Char), strLeAux as bs = true →
    strLeAux bs as = true → as = bs
  | [], [] => by intro _ _; rfl
  | [], b :: bs => by
    intro _ h2
    simp [strLeAux] at h2
  | a :: as, [] => by
    intro h1 _
    simp [strLeAux] at h1
  | a :: as, b :: bs => by
    intro h1 h2
    rw [strLeAux_cons] at h1 h2
    have hab : a.toNat = b.toNat := by
      rcases h1 with h | ⟨h, _⟩ <;> rcases h2 with h' | ⟨h', _⟩ <;> omega
    have hr1 : strLeAux as bs = true := by
      rcases h1 with h | ⟨_, hr⟩
      · omega
      · exact hr
    have hr2 : strLeAux bs as = true := by
      rcases h2 with h | ⟨_, hr⟩
      · omega
      · exact hr
    have hchar : a = b := Char.eq_of_val_eq (UInt32.toNat.inj hab)
    rw [hchar, strLeAux_antisymm as bs hr1 hr2]

instance : IsTotal String (fun a b => strLe a b = true) :=
  ⟨fun a b => strLeAux_total a.data b.data⟩

instance : IsTrans String (fun a b => strLe a b = true) :=
  ⟨fun a b c => strLeAux_trans a.data b.data c.data⟩

instance : IsAntisymm String (fun a b => strLe a b = true) :=
  ⟨fun a b h1 h2 => by
    have h := strLeAux_antisymm a.data b.data h1 h2
    cases a
    cases b
    simp_all⟩

theorem sortStrings_perm (l : List String) : List.Perm (sortStrings l) l :=
  List.perm_insertionSort _ l

theorem sortStrings_sorted (l : List String) :
    List.Sorted (fun a b : String => strLe a b = true) (sortStrings l) :=
  List.sorted_insertionSort _ l

/-- Two string lists have equal `sort()` results iff they are permutations of
each other. -/
theorem sortStrings_eq_iff (a b : List String) :
    sortStrings a = sortStrings b ↔ List.Perm a b := by
  constructor
  · intro h
    exact ((sortStrings_perm a).symm.trans (h ▸ sortStrings_perm b))
  · intro h
    exact List.eq_of_perm_of_sorted
      ((sortStrings_perm a).trans (h.trans (sortStrings_perm b).symm))
      (sortStrings_sorted a) (sortStrings_sorted b)

theorem mem_sortStrings (k : String) (l : List String) :
    k ∈ sortStrings l ↔ k ∈ l :=
  (sortStrings_perm l).mem_iff

/-- A poll outcome on which the wait loop retries: anything that is neither a
successful status nor a `ResourceNotFoundException`. -/
theorem waitFrom_retry_step (poll : Nat → PollResult) (s n : Nat)
    (h1 : poll s ≠ .ok .successful) (h2 : poll s ≠ .notFound) :
    waitFrom poll s (n + 1) = waitFrom poll (s + 1) n := by
  cases hp : poll s with
  | ok st =>
    cases st with
    | successful => exact absurd hp h1
    | failed => simp [waitFrom, hp]
    | inProgress => simp [waitFrom, hp]
  | notFound => exact absurd hp h2
  | err => simp [waitFrom, hp]

theorem waitFrom_success_characterize (poll : Nat → PollResult) :
    ∀ (rem s i : Nat), waitFrom poll s rem = .success i →
      s ≤ i ∧ i < s + rem ∧ poll i = .ok .successful ∧
        ∀ j, s ≤ j → j < i → poll j ≠ .ok .successful ∧ poll j ≠ .notFound := by
  intro rem
  induction rem with
  | zero =>
    intro s i h
    simp [waitFrom] at h
  | succ n ih =>
    intro s i h
    cases hp : poll s with
    | ok st =>
      cases st with
      | successful =>
        have hs : waitFrom poll s (n + 1) = .success s := by simp [waitFrom, hp]
        rw [hs] at h
        cases h
        exact ⟨le_refl _, by omega, hp, fun j hj1 hj2 => absurd (lt_of_le_of_lt hj1 hj2) (lt_irrefl _)⟩
      | failed =>
        rw [waitFrom_retry_step poll s n (by simp [hp]) (by simp [hp])] at h
        obtain ⟨h1, h2, h3, h4⟩ := ih (s + 1) i h
        refine ⟨by omega, by omega, h3, fun j hj1 hj2 => ?_⟩
        rcases eq_or_lt_of_le hj1 with rfl | hlt
        · exact ⟨by simp [hp], by simp [hp]⟩
        · exact h4 j hlt hj2
      | inProgress =>
        rw [waitFrom_retry_step poll s n (by simp [hp]) (by simp [hp])] at h
        obtain ⟨h1, h2, h3, h4⟩ := ih (s + 1) i h
        refine ⟨by omega, by omega, h3, fun j hj1 hj2 => ?_⟩
        rcases eq_or_lt_of_le hj1 with rfl | hlt
        · exact ⟨by simp [hp], by simp [hp]⟩
        · exact h4 j hlt hj2
    | notFound =>
      have hs : waitFrom poll s (n + 1) = .notFoundErr s := by simp [waitFrom, hp]
      rw [hs] at h
      cases h
    | err =>
      rw [waitFrom_retry_step poll s n (by simp [hp]) (by simp [hp])] at h
      obtain ⟨h1, h2, h3, h4⟩ := ih (s + 1) i h
      refine ⟨by omega, by omega, h3, fun j hj1 hj2 => ?_⟩
      rcases eq_or_lt_of_le hj1 with rfl | hlt
      · exact ⟨by simp [hp], by simp [hp]⟩
      · exact h4 j hlt hj2

theorem waitFrom_notFound_bound (poll : Nat → PollResult) :
    ∀ (rem s i : Nat), waitFrom poll s rem = .notFoundErr i → s ≤ i ∧ i < s + rem := by
  intro rem
  induction rem with
  | zero =>
    intro s i h
    simp [waitFrom] at h
  | succ n ih =>
    intro s i h
    cases hp : poll s with
    | ok st =>
      cases st with
      | successful =>
        have hs : waitFrom poll s (n + 1) = .success s := by simp [waitFrom, hp]
        rw [hs] at h
        cases h
      | failed =>
        rw [waitFrom_retry_step poll s n (by simp [hp]) (by simp [hp])] at h
        have := ih (s + 1) i h
        omega
      | inProgress =>
        rw [waitFrom_retry_step poll s n (by simp [hp]) (by simp [hp])] at h
        have := ih (s + 1) i h
        omega
    | notFound =>
      have hs : waitFrom poll s (n + 1) = .notFoundErr s := by simp [waitFrom, hp]
      rw [hs] at h
      cases h
      exact ⟨le_refl _, by omega⟩
    | err =>
      rw [waitFrom_retry_step poll s n (by simp [hp]) (by simp [hp])] at h
      have := ih (s + 1) i h
      omega

theorem waitFrom_timeout_of_retries (poll : Nat → PollResult) :
    ∀ (rem s : Nat),
      (∀ i, s ≤ i → i < s + rem → poll i ≠ .ok .successful ∧ poll i ≠ .notFound) →
      waitFrom poll s rem = .timeout := by
  intro rem
  induction rem with
  | zero => intro s _; rfl
  | succ n ih =>
    intro s hno
    have hs := hno s (le_refl s) (by omega)
    rw [waitFrom_retry_step poll s n hs.1 hs.2]
    exact ih (s + 1) (fun i h1 h2 => hno i (by omega) (by omega))

theorem waitFrom_firstSuccess (poll : Nat → PollResult) :
    ∀ (rem s i : Nat), s ≤ i → i < s + rem → poll i = .ok .successful →
      (∀ j, s ≤ j → j < i → poll j ≠ .ok .successful ∧ poll j ≠ .notFound) →
      waitFrom poll s rem = .success i := by
  intro rem
  induction rem with
  | zero =>
    intro s i h1 h2
    omega
  | succ n ih =>
    intro s i h1 h2 hpi hmin
    rcases eq_or_lt_of_le h1 with rfl | hlt
    · simp [waitFrom, hpi]
    · have hs := hmin s (le_refl s) hlt
      rw [waitFrom_retry_step poll s n hs.1 hs.2]
      exact ih (s + 1) i (by omega) (by omega) hpi (fun j hj1 hj2 => hmin j (by omega) hj2)

/-- Claim C9: the wait-for-configuration-update poll loop always terminates
(the embedding is a total function); every exit happens within the cap of 30
poll attempts; it returns success exactly at the first successful poll; and
when no poll within the cap reports success (or propagates a not-found error)
it exits with the timeout error.  The fixed one-second sleep between attempts
is timing and is outside the shallow embedding. -/
theorem waitForFunctionUpdateToComplete_bounded (poll : Nat → PollResult) :
    (∀ i, waitForFunctionUpdateToComplete poll = .success i →
        i < MAX_RETRIES ∧ poll i = .ok .successful ∧ ∀ j, j < i → poll j ≠ .ok .successful)
  ∧ (∀ i, waitForFunctionUpdateToComplete poll = .notFoundErr i → i < MAX_RETRIES)
  ∧ ((∀ i, i < MAX_RETRIES → poll i ≠ .ok .successful ∧ poll i ≠ .notFound) →
        waitForFunctionUpdateToComplete poll = .timeout)
  ∧ (∀ i, i < MAX_RETRIES → poll i = .ok .successful →
        (∀ j, j < i → poll j ≠ .ok .successful ∧ poll j ≠ .notFound) →
        waitForFunctionUpdateToComplete poll = .success i) := by
  refine ⟨?_, ?_, ?_, ?_⟩
  · intro i h
    obtain ⟨h1, h2, h3, h4⟩ := waitFrom_success_characterize poll MAX_RETRIES 0 i h
    exact ⟨by omega, h3, fun j hj => (h4 j (by omega) hj).1⟩
  · intro i h
    have := waitFrom_notFound_bound poll MAX_RETRIES 0 i h
    omega
  · intro hno
    exact waitFrom_timeout_of_retries poll MAX_RETRIES 0
      (fun i h1 h2 => hno i (by omega))
  · intro i hi hpi hmin
    exact waitFrom_firstSuccess poll MAX_RETRIES 0 i (by omega) (by omega) hpi
      (fun j _ hj => hmin j hj)

/-- Witness for C9: with a poll sequence that is in progress twice and then
successful, the loop returns success at attempt 2. -/
theorem waitForFunctionUpdateToComplete_bounded_witness :
    waitForFunctionUpdateToComplete
      (fun i => if i < 2 then .ok .inProgress else .ok .successful) = .success 2 :=
  (waitForFunctionUpdateToComplete_bounded
      (fun i => if i < 2 then .ok .inProgress else .ok .successful)).2.2.2 2
    (by decide) (by decide) (fun j hj => by interval_cases j <;> exact ⟨by decide, by decide⟩)

/-- Claim C2 (evaluation at the failing input): when every poll of the wait
loop observes `LastUpdateStatus = Failed`, the operation does NOT raise the
failure immediately — the `throw new Error('Function update failed: ...')` is
caught by the `catch` of its own `try` block (the thrown `Error` carries no
`code` property, so the `ResourceNotFoundException` test fails), the loop
sleeps and retries, and after exhausting the 30-attempt cap it raises the
*timeout* error instead.  The embedding makes this structural: `WaitOutcome`
has no failure-error exit at all. -/
theorem waitLoop_failed_status_is_not_terminal :
    waitForFunctionUpdateToComplete (fun _ => .ok .failed) = .timeout := by
  decide

/-- Claim C5: the Change Detector fails toward re-publishing.  A
`ResourceNotFoundException` on the version-pinned fetch yields
`changed = true`, and an unexpected error at any call of the check (the latest
fetch, the pinned fetch, or the final alias probe) also yields
`changed = true`; the outer catch swallows the error rather than propagating
it, which is why the embedding is a total `Bool`-valued function. -/
theorem haveFunctionChanges_failsTowardRepublish (env : ChangeEnv)
    (desired : List (String × String)) (v : String)
    (h : env.versionConfig = .notFound ∨ env.latestConfig = .err ∨
         env.latestConfig = .notFound ∨ env.versionConfig = .err ∨ env.aliasRead = .err) :
    haveFunctionChanges env desired v = true := by
  obtain ⟨lc, vc, ar⟩ := env
  simp only at h
  rcases h with h | h | h | h | h <;> subst h
  · cases lc <;> simp [haveFunctionChanges]
  · simp [haveFunctionChanges]
  · simp [haveFunctionChanges]
  · cases lc <;> simp [haveFunctionChanges]
  · cases lc with
    | ok latest =>
      cases vc with
      | ok ver => simp [haveFunctionChanges]
      | notFound => rfl
      | err => rfl
    | notFound => rfl
    | err => rfl

/-- Witness for C5: a check whose pinned fetch reports not-found returns
`changed = true`. -/
theorem haveFunctionChanges_failsTowardRepublish_witness :
    haveFunctionChanges ⟨.ok sampleFnConfig, .notFound, .err⟩ [("A", "1")] "3" = true :=
  haveFunctionChanges_failsTowardRepublish ⟨.ok sampleFnConfig, .notFound, .err⟩
    [("A", "1")] "3" (Or.inl rfl)

/-- Claim C6: the Alias Manager is a three-way probe-then-act.  For every
non-falsy function physical identifier and target version: a not-found probe
issues exactly one create pointing at the target version; a probe finding the
alias at a different version issues exactly one update; a probe finding the
alias already at the target version returns the existing descriptor with no
mutating call; and an unexpected probe error propagates to the caller. -/
theorem createOrUpdateAlias_probe_then_act (cfg : Config) (env : AliasEnv)
    (functionName version : String) (hfn : functionName ≠ "") (hv : version ≠ "") :
    (env.aliasRead = .notFound →
       createOrUpdateAlias cfg env functionName version =
         (.ok env.createResult, [.createAlias functionName cfg.aliasName version]))
  ∧ (∀ a, env.aliasRead = .ok a → a.functionVersion ≠ version →
       createOrUpdateAlias cfg env functionName version =
         (.ok env.updateResult, [.updateAlias functionName cfg.aliasName version]))
  ∧ (∀ a, env.aliasRead = .ok a → a.functionVersion = version →
       createOrUpdateAlias cfg env functionName version = (.ok a, []))
  ∧ (env.aliasRead = .err →
       createOrUpdateAlias cfg env functionName version = (.error (), [])) := by
  refine ⟨?_, ?_, ?_, ?_⟩
  · intro h
    simp [createOrUpdateAlias, hfn, hv, h]
  · intro a h hne
    simp [createOrUpdateAlias, hfn, hv, h, hne]
  · intro a h he
    simp [createOrUpdateAlias, hfn, hv, h, he]
  · intro h
    simp [createOrUpdateAlias, hfn, hv, h]

/-- Witness for C6: a not-found probe creates the alias at version `3`. -/
theorem createOrUpdateAlias_probe_then_act_witness :
    createOrUpdateAlias sampleConfig ⟨.notFound, sampleAliasDesc, sampleAliasDesc⟩
        "svc-hello" "3" =
      (.ok sampleAliasDesc, [.createAlias "svc-hello" "dev" "3"]) :=
  (createOrUpdateAlias_probe_then_act sampleConfig
      ⟨.notFound, sampleAliasDesc, sampleAliasDesc⟩ "svc-hello" "3"
      (by decide) (by decide)).1 rfl

/-- Claim C10: the gateway-resource cache only ever stores successful
lookups.  Under a well-formed cache (every entry's resource path equals its
key), `findResourceByPath` preserves well-formedness; the cache either stays
unchanged or gains exactly the found resource under the normalized key it
matched; and a lookup that found nothing leaves the cache unchanged (so every
subsequent call for that path scans the listing again). -/
theorem findResourceByPath_cache_only_successes (cache : ResourceCache)
    (resources : List GatewayResource) (path : String) (hwf : CacheWF cache) :
    CacheWF (findResourceByPath cache resources path).2
  ∧ ((findResourceByPath cache resources path).2 = cache ∨
      ∃ r, (findResourceByPath cache resources path).1 = some r ∧
        r.path = normalizePath path ∧
        (findResourceByPath cache resources path).2 = (normalizePath path, r) :: cache)
  ∧ ((findResourceByPath cache resources path).1 = none →
      (findResourceByPath cache resources path).2 = cache) := by
  unfold findResourceByPath
  cases hc : (cache.find? fun e => e.1 == normalizePath path) with
  | some e =>
    simp only [hc, Option.map_some]
    exact ⟨hwf, Or.inl rfl, fun _ => rfl⟩
  | none =>
    simp only [hc, Option.map_none]
    cases hr : resources.find? (fun r => r.path == normalizePath path) with
    | some r =>
      have hrp : r.path = normalizePath path := by
        have := List.find?_some hr
        simpa using this
      simp only
      refine ⟨?_, Or.inr ⟨r, rfl, hrp, rfl⟩, fun hnone => by cases hnone⟩
      intro e he
      rcases List.mem_cons.mp he with rfl | hmem
      · exact hrp
      · exact hwf e hmem
    | none =>
      exact ⟨hwf, Or.inl rfl, fun _ => rfl⟩

/-- Witness for C10: a successful lookup on an empty cache stores the found
resource under its normalized key, and the resulting cache is well-formed. -/
theorem findResourceByPath_cache_only_successes_witness :
    CacheWF (findResourceByPath [] [⟨"r1", "/a"⟩] "a").2 :=
  (findResourceByPath_cache_only_successes [] [⟨"r1", "/a"⟩] "a"
    (by intro e he; cases he)).1

/-- Claim C7: both the HTTP and the WebSocket permission-grant steps issue
every removal and addition against the unqualified physical function name in
per-function stage-variable mode, and against the alias-qualified
`functionName:alias` target in global mode. -/
theorem permission_target_by_mode (cfg : Config) (a : CreatedAlias)
    (resourceId method path routeId routeKey : String) :
    ((addLambdaPermission cfg a resourceId method path).all
       (mutCallTargets (if cfg.perFunctionStageVars then a.functionName
                        else a.functionName ++ ":" ++ cfg.aliasName)) = true)
  ∧ ((addWebSocketLambdaPermission cfg a routeId routeKey).all
       (mutCallTargets (if cfg.perFunctionStageVars then a.functionName
                        else a.functionName ++ ":" ++ cfg.aliasName)) = true) := by
  cases hp : cfg.perFunctionStageVars <;>
    simp [addLambdaPermission, addWebSocketLambdaPermission, mutCallTargets, hp]

/-- An `if _ then true else _` on booleans is a disjunction. -/
theorem ite_true_or_aux (P : Prop) [Decidable P] (b : Bool) :
    (if P then true else b) = (decide P || b) := by
  by_cases h : P <;> simp [h]

/-- Claim C4 (counterexample): with both configurations fetchable and equal in
every compared respect, an unexpected error on the Change Detector's internal
alias probe still yields `changed = true`, although none of the claim's listed
conditions holds — the claim's "exactly when" fails as stated. -/
theorem haveFunctionChanges_aliasErr_counterexample :
    haveFunctionChanges ⟨.ok sampleFnConfig, .ok sampleFnConfig, .err⟩ [("A", "1")] "3" = true
  ∧ ¬ specChangeCondition sampleFnConfig sampleFnConfig [("A", "1")] := by
  constructor
  · decide
  · intro h
    rcases h with h | h | h | h | h | h | h | h | h | h | h
    · exact h rfl
    · exact h rfl
    · exact h rfl
    · exact h rfl
    · exact h rfl
    · exact h rfl
    · exact h (List.Perm.refl _)
    · exact h (by decide)
    · revert h; decide
    · revert h; decide
    · exact h rfl

/-- Claim C4 (amended): for every desired environment and comparison version
whose latest and pinned configurations are both fetchable, and whose final
alias probe does not fail unexpectedly, the Change Detector returns
`changed = true` exactly when the condition of the claim holds
(`specChangeCondition`, worded from the spec). -/
theorem haveFunctionChanges_iff_specChangeCondition (env : ChangeEnv)
    (latest ver : FunctionConfig) (desired : List (String × String)) (v : String)
    (hl : env.latestConfig = .ok latest) (hv : env.versionConfig = .ok ver)
    (ha : env.aliasRead ≠ .err) :
    (haveFunctionChanges env desired v = true ↔ specChangeCondition latest ver desired) := by
  obtain ⟨lc, vc, ar⟩ := env
  simp only at hl hv ha
  subst hl
  subst hv
  rcases ar with a | _ | _
  · simp [haveFunctionChanges, specChangeCondition, ite_true_or_aux, List.any_eq_true,
      mem_sortStrings, sortStrings_eq_iff, or_assoc]
  · simp [haveFunctionChanges, specChangeCondition, ite_true_or_aux, List.any_eq_true,
      mem_sortStrings, sortStrings_eq_iff, or_assoc]
  · exact absurd rfl ha

/-- Witness for the amended C4: an unchanged function (equal configurations,
alias probe succeeding) is reported unchanged. -/
theorem haveFunctionChanges_iff_specChangeCondition_witness :
    haveFunctionChanges steadyChangeEnv [("A", "1")] "3" = true ↔
      specChangeCondition sampleFnConfig sampleFnConfig [("A", "1")] :=
  haveFunctionChanges_iff_specChangeCondition steadyChangeEnv sampleFnConfig sampleFnConfig
    [("A", "1")] "3" rfl rfl (by simp [steadyChangeEnv])

theorem isSafeChar_of_isStageKeyChar (c : Char) (h : isStageKeyChar c = true) :
    isSafeChar c = true := by
  simp only [isStageKeyChar, Bool.or_eq_true] at h
  rcases h with h | h
  · simp [isSafeChar, h]
  · simp [isSafeChar, h]

theorem allSafeChars_sanitizeStatementId (s : String) :
    allSafeChars (sanitizeStatementId s) = true := by
  have key : ∀ l : List Char,
      (l.map (fun c => if isSafeChar c then c else '-')).all isSafeChar = true := by
    intro l
    simp only [List.all_eq_true]
    intro c hc
    simp only [List.mem_map] at hc
    obtain ⟨d, _, rfl⟩ := hc
    by_cases h : isSafeChar d = true
    · rw [if_pos h]
      exact h
    · rw [if_neg h]
      decide
  exact key s.data

theorem allSafeChars_buildStageVarKey_sanitized (cfg : Config) (functionName : String) :
    allSafeChars (buildStageVarKey { cfg with stageVarSanitize := true } functionName) = true := by
  have key : ∀ l : List Char,
      (l.map (fun c => if isStageKeyChar c then c else '_')).all isSafeChar = true := by
    intro l
    simp only [List.all_eq_true]
    intro c hc
    simp only [List.mem_map] at hc
    obtain ⟨d, _, rfl⟩ := hc
    by_cases h : isStageKeyChar d = true
    · rw [if_pos h]
      exact isSafeChar_of_isStageKeyChar d h
    · rw [if_neg h]
      decide
  simp only [buildStageVarKey, if_true]
  exact key _

/-- Claim C8 (counterexample): with stage-variable sanitization disabled (a
supported configuration: `stageVarSanitize: false`), the derived
stage-variable key for function name `my.func` under the default template is
`my.funcAlias`, which contains `.` — outside the safe set.  The claim's
unconditional safety fails as stated. -/
theorem stageVarKey_unsafe_when_sanitize_off :
    allSafeChars (buildStageVarKey
      ⟨"dev", "us-east-1", "123456789012", "restapi", "wsapi", "prod",
       false, false, true, "", false, true⟩ "my.func") = false := by
  decide

/-- Claim C8 (amended): every derived permission statement id (HTTP stage,
HTTP test-invoke, WebSocket) contains only characters from the safe set of
letters, digits, underscore and hyphen, for all inputs; the derived
stage-variable key does so whenever the sanitize flag is enabled (with the
flag disabled the key is the raw template substitution and may contain
arbitrary characters). -/
theorem safe_identifiers (cfg : Config) (method resourceId routeId functionName : String) :
    allSafeChars (httpStageStatementId cfg method resourceId) = true
  ∧ allSafeChars (httpTestStatementId cfg method resourceId) = true
  ∧ allSafeChars (wsStatementId cfg routeId) = true
  ∧ allSafeChars (buildStageVarKey { cfg with stageVarSanitize := true } functionName) = true :=
  ⟨allSafeChars_sanitizeStatementId _, allSafeChars_sanitizeStatementId _,
   allSafeChars_sanitizeStatementId _, allSafeChars_buildStageVarKey_sanitized cfg functionName⟩

/-- Claim C3 (counterexample): for a function that exists remotely, whose
version listing *succeeds* and reports zero published numbered versions, with
no alias yet and a remote configuration matching the desired state, the run
uses the `$LATEST` fallback (although listing did not fail) and creates the
alias pointing at `$LATEST` without publishing any version — no
`publishVersion` call appears in the issued calls, refuting "publishes a new
immutable version before any alias is created". -/
theorem zeroVersions_no_publish_counterexample :
    getLatestFunctionVersion zeroVersionsEnv = .ok (some "$LATEST")
  ∧ processFunction false sampleConfig zeroVersionsFnEnv sampleSpecHello =
      (.created ⟨"svc-hello", "hello", "dev", "arn:new", "$LATEST", []⟩,
       [.createAlias "svc-hello" "dev" "$LATEST"]) :=
  ⟨rfl, by decide⟩

/-- Claim C3 (amended): for every function that exists remotely but has zero
published numbered versions, the `$LATEST` fallback is used whether the
listing succeeds (with no numbered version) or fails; and when no change is
detected against `$LATEST` and no alias exists yet, the run creates the alias
pointing at `$LATEST` without publishing any version. -/
theorem zeroVersions_fallback_no_publish (cfg : Config) (env : FnEnv) (f : FunctionSpec)
    (hname : f.functionName ≠ "")
    (hfn : env.versions.getFunctionResult = .ok ())
    (hlist : ∃ vs, env.versions.listVersionsResult = .ok vs ∧
       vs.filter (fun v => v ≠ "$LATEST") = [])
    (halias : env.existingAlias = .notFound)
    (hnochange : haveFunctionChanges env.changeEnv f.environment "$LATEST" = false)
    (hread : env.aliasEnv.aliasRead = .notFound) :
    getLatestFunctionVersion env.versions = .ok (some "$LATEST")
  ∧ processFunction false cfg env f =
      (.created ⟨f.functionName, f.name, cfg.aliasName, env.aliasEnv.createResult.aliasArn,
         "$LATEST", f.events⟩,
       [.createAlias f.functionName cfg.aliasName "$LATEST"]) := by
  obtain ⟨vs, hvs, hfil⟩ := hlist
  have hget : getLatestFunctionVersion env.versions = .ok (some "$LATEST") := by
    simp only [ne_eq, decide_not] at hfil
    simp [getLatestFunctionVersion, hfn, hvs, hfil, pickLatest]
  refine ⟨hget, ?_⟩
  unfold processFunction
  rw [halias]
  unfold processFunctionKnownAlias
  rw [hget]
  simp only [hnochange, Bool.false_eq_true, if_false, Bool.if_false_left]
  simp [processFunctionFinish, createOrUpdateAlias, hname, hread]

/-- Witness for the amended C3, at the concrete zero-numbered-versions
environment. -/
theorem zeroVersions_fallback_no_publish_witness :
    processFunction false sampleConfig zeroVersionsFnEnv sampleSpecHello =
      (.created ⟨"svc-hello", "hello", "dev", "arn:new", "$LATEST", []⟩,
       [.createAlias "svc-hello" "dev" "$LATEST"]) :=
  (zeroVersions_fallback_no_publish sampleConfig zeroVersionsFnEnv sampleSpecHello
    (by decide) rfl ⟨["$LATEST"], rfl, by decide⟩ rfl (by decide) rfl).2

theorem getLatestFunctionVersion_isSome (env : VersionListEnv)
    (h : env.getFunctionResult = .ok ()) :
    ∃ v, getLatestFunctionVersion env = .ok (some v) := by
  cases hl : env.listVersionsResult with
  | ok vs =>
    cases hp : pickLatest (vs.filter fun v => v ≠ "$LATEST") with
    | some v =>
      refine ⟨v, ?_⟩
      simp only [ne_eq, decide_not] at hp
      simp [getLatestFunctionVersion, h, hl, hp]
    | none =>
      refine ⟨"$LATEST", ?_⟩
      simp only [ne_eq, decide_not] at hp
      simp [getLatestFunctionVersion, h, hl, hp]
  | notFound => exact ⟨"$LATEST", by simp [getLatestFunctionVersion, h, hl]⟩
  | err => exact ⟨"$LATEST", by simp [getLatestFunctionVersion, h, hl]⟩

theorem processFunction_skipped_of_steady (cfg : Config) (f : FunctionSpec) (env : FnEnv)
    (h : steadyFunction f env) :
    processFunction false cfg env f = (.skipped, []) := by
  obtain ⟨hfn, a, ha, hch⟩ := h
  obtain ⟨v, hv⟩ := getLatestFunctionVersion_isSome env.versions hfn
  unfold processFunction
  rw [ha]
  unfold processFunctionKnownAlias
  rw [hv]
  simp [hch]

theorem createOrUpdateFunctionAliases_steady (cfg : Config) :
    ∀ fns : List (FunctionSpec × FnEnv), (∀ p ∈ fns, steadyFunction p.1 p.2) →
      createOrUpdateFunctionAliases false cfg fns = ([], [], []) := by
  intro fns
  induction fns with
  | nil => intro _; rfl
  | cons p rest ih =>
    intro h
    obtain ⟨f, env⟩ := p
    have hstep := processFunction_skipped_of_steady cfg f env (h _ (List.mem_cons_self _ _))
    have hrest := ih (fun q hq => h q (List.mem_cons_of_mem _ hq))
    simp [createOrUpdateFunctionAliases, hstep, hrest]

/-- Claim C1: with the force flag off, when the desired state and the remote
configuration are unchanged since the previous run (every function's alias
exists and the change check against its pointed version reports no change),
the second run issues zero mutating remote calls: every function is skipped by
the per-function pipeline, the created-aliases list is empty, the whole
workflow's mutating-call list is empty, and (when there are functions at all)
`deployAliasWorkflow` takes the early return before any version publish,
alias update, integration rewrite, permission change or gateway deployment. -/
theorem secondRun_idempotent (cfg : Config) (env : WorkflowEnv)
    (fns : List (FunctionSpec × FnEnv))
    (hacct : ∃ s, env.accountRead = .ok s)
    (hsteady : ∀ p ∈ fns, steadyFunction p.1 p.2) :
    (∀ p ∈ fns, processFunction false cfg p.2 p.1 = (.skipped, []))
  ∧ (createOrUpdateFunctionAliases false cfg fns).1 = []
  ∧ (deployAliasWorkflow false cfg env fns).2 = []
  ∧ (fns ≠ [] → deployAliasWorkflow false cfg env fns = (.earlyNoAliases, [])) := by
  obtain ⟨s, hs⟩ := hacct
  have hloop := createOrUpdateFunctionAliases_steady cfg fns hsteady
  refine ⟨fun p hp => processFunction_skipped_of_steady cfg p.1 p.2 (hsteady p hp),
    by rw [hloop], ?_, ?_⟩
  · unfold deployAliasWorkflow
    rw [hs]
    by_cases hemp : fns.isEmpty
    · simp [hemp]
    · simp [hemp, hloop]
  · intro hne
    have hemp : fns.isEmpty = false := by
      cases fns with
      | nil => exact absurd rfl hne
      | cons q rest => rfl
    unfold deployAliasWorkflow
    rw [hs]
    simp [hemp, hloop]

/-- Witness for C1: one unchanged function; the workflow early-returns with an
empty mutating-call list. -/
theorem secondRun_idempotent_witness :
    deployAliasWorkflow false sampleConfig sampleWorkflowEnv [(sampleSpecHello, steadyFnEnv)] =
      (.earlyNoAliases, []) :=
  (secondRun_idempotent sampleConfig sampleWorkflowEnv [(sampleSpecHello, steadyFnEnv)]
    ⟨"123456789012", rfl⟩
    (fun p hp => by
      simp only [List.mem_singleton] at hp
      subst hp
      exact ⟨rfl, sampleAliasDesc, rfl, by decide⟩)).2.2.2 (by simp)

end AwsAlias
